import Mathlib

/-!
Verification development for the freewriting-cleanup plugin
(Anthropic API client, retry policy, structured-output parsing,
model cache with TTL and throttled notices, orchestration service).

Strings are modelled as `List Char`.  JavaScript `String.prototype.trim`
is modelled by `jsTrim` over the ECMAScript white-space set.  The
stateful parts (retry loop, model cache) are modelled by explicit state
passing; the HTTP transport is an oracle parameter giving the outcome of
each attempt.
-/

/-- White-space characters removed by JavaScript `String.prototype.trim`
(ECMAScript WhiteSpace and LineTerminator sets). -/
def isJSSpace (c : Char) : Bool :=
  c = ' ' || c = '\t' || c = '\n' || c = '\r' ||
  c = '\u000B' || c = '\u000C' || c = '\u00A0' || c = '\uFEFF' ||
  c = '\u1680' || c = '\u2000' || c = '\u2001' || c = '\u2002' ||
  c = '\u2003' || c = '\u2004' || c = '\u2005' || c = '\u2006' ||
  c = '\u2007' || c = '\u2008' || c = '\u2009' || c = '\u200A' ||
  c = '\u2028' || c = '\u2029' || c = '\u202F' || c = '\u205F' ||
  c = '\u3000'

/-- Model of JavaScript `s.trim()`: strip white space from both ends. -/
def jsTrim (s : List Char) : List Char :=
  ((s.dropWhile isJSSpace).reverse.dropWhile isJSSpace).reverse

/-- Start marker of the cleaned-text section
(`anthropicClient.ts`, regex in `parseStructuredResponse`). -/
def CLEANED_TEXT_START : List Char := "===CLEANED TEXT===".toList

/-- End marker of the cleaned-text section. -/
def CLEANED_TEXT_END : List Char := "===END CLEANED TEXT===".toList

/-- Start marker of the commentary section. -/
def COMMENTARY_START : List Char := "===COMMENTARY===".toList

/-- End marker of the commentary section. -/
def COMMENTARY_END : List Char := "===END COMMENTARY===".toList

/-- Helper for the lazy regex `marker([\s\S]*?)end`: the characters of
`s` strictly before the first occurrence of `endm`, or `none` when
`endm` does not occur in `s`. -/
def takeUntil (endm : List Char) : List Char → Option (List Char)
  | [] => if endm.isPrefixOf ([] : List Char) then some [] else none
  | c :: rest =>
    if endm.isPrefixOf (c :: rest) then some []
    else (takeUntil endm rest).map (fun t => c :: t)

/-- Model of `responseText.match(/START([\s\S]*?)END/)`: leftmost match,
lazy group.  Scans for the first position where `startm` occurs and is
followed (anywhere later) by `endm`; the group is the text up to the
first such `endm`. -/
def extractMarked (startm endm : List Char) : List Char → Option (List Char)
  | [] => none
  | c :: rest =>
    match (if startm.isPrefixOf (c :: rest)
           then takeUntil endm ((c :: rest).drop startm.length)
           else none) with
    | some content => some content
    | none => extractMarked startm endm rest

/-- Result of `AnthropicClient.parseStructuredResponse`. -/
structure ParsedResponse where
  cleanedText : List Char
  commentary : Option (List Char)
deriving DecidableEq, Repr

/-- Error message when the cleaned-text marker pair is missing. -/
def invalidFormatMsg : List Char :=
  "Invalid response format: Could not find cleaned text section".toList

/-- Error message when the text between the markers trims to empty. -/
def emptyCleanedMsg : List Char := "Empty cleaned text received".toList

/-- Model of `AnthropicClient.parseStructuredResponse` (anthropicClient.ts):
extract the cleaned text between the markers (throwing if absent or
empty after trimming), then optionally the commentary section, whose
absence is not an error. -/
def parseStructuredResponse (responseText : List Char) (expectCommentary : Bool) :
    Except (List Char) ParsedResponse :=
  match extractMarked CLEANED_TEXT_START CLEANED_TEXT_END responseText with
  | none => Except.error invalidFormatMsg
  | some raw =>
    let cleanedText := jsTrim raw
    if cleanedText = [] then Except.error emptyCleanedMsg
    else
      let commentary :=
        if expectCommentary then
          match extractMarked COMMENTARY_START COMMENTARY_END responseText with
          | some commentaryRaw => some (jsTrim commentaryRaw)
          | none => none
        else none
      Except.ok { cleanedText := cleanedText, commentary := commentary }

/-- Token usage reported by the provider. -/
structure Usage where
  input_tokens : Nat
  output_tokens : Nat
deriving DecidableEq, Repr

/-- One content block of a provider response. -/
structure ContentBlock where
  text : List Char
deriving DecidableEq, Repr

/-- Provider response to the messages endpoint (types.ts,
`AnthropicResponse`).  Metadata fields never read by the client logic
(`id`, `model`, `role`, `stop_reason`, `stop_sequence`, `type`) are
elided. -/
structure AnthropicResponse where
  content : List ContentBlock
  usage : Usage
deriving DecidableEq, Repr

/-- Model of `AnthropicClient.extractTextFromResponse`: take the text of
the FIRST content block, trimmed; error when there is no content or the
first block's text is empty after trimming. -/
def extractTextFromResponse (response : AnthropicResponse) :
    Except (List Char) (List Char) :=
  match response.content with
  | [] => Except.error "No content received from API".toList
  | first :: _ =>
    if jsTrim first.text = [] then Except.error "Empty response from API".toList
    else Except.ok (jsTrim first.text)

/-- Outcome of one call to the host HTTP function `requestUrl`: either a
resolved response carrying an HTTP status, the raw body text and (when
2xx) the parsed JSON payload, or a rejection (network failure). -/
inductive HttpOutcome where
  | response (status : Nat) (body : List Char) (resp : AnthropicResponse)
  | failure (msg : List Char)
deriving Repr

/-- Maximum number of attempts (`MAX_RETRIES` in anthropicClient.ts). -/
def MAX_RETRIES : Nat := 3

/-- Base backoff delay in milliseconds (`RETRY_DELAY_BASE`). -/
def RETRY_DELAY_BASE : Nat := 1000

/-- Message thrown by `makeRequest` on a non-2xx status. -/
def apiRequestFailedMsg (status : Nat) (body : List Char) : List Char :=
  "API request failed (".toList ++ (toString status).toList ++ "): ".toList ++
    (if body = [] then "Unknown error".toList else body)

/-- Model of `AnthropicClient.makeRequest`: a single HTTP POST; any
status outside [200,300) becomes an error whose message carries the
status and body; a transport rejection is rethrown as-is. -/
def makeRequest (o : HttpOutcome) : Except (List Char) AnthropicResponse :=
  match o with
  | HttpOutcome.response status body resp =>
    if status < 200 ∨ 300 ≤ status then Except.error (apiRequestFailedMsg status body)
    else Except.ok resp
  | HttpOutcome.failure msg => Except.error msg

/-- Result of the retry loop: the final result, the number of attempts
actually made, and the list of backoff sleeps (in ms) performed. -/
structure RetryResult where
  result : Except (List Char) AnthropicResponse
  attempts : Nat
  sleeps : List Nat
deriving Repr

/-- Message thrown after the retry budget is exhausted. -/
def failedAfterMsg (lastError : List Char) : List Char :=
  "Failed after ".toList ++ (toString MAX_RETRIES).toList ++
    " attempts. Last error: ".toList ++ lastError

/-- Loop body of `AnthropicClient.makeRequestWithRetry`: `remaining`
iterations left, `attempt` is the 1-based attempt counter.  On an error
at `attempt < MAX_RETRIES`, sleep `RETRY_DELAY_BASE * 2 ^ (attempt - 1)`
milliseconds and continue. -/
def retryLoop (oracle : Nat → Except (List Char) AnthropicResponse) :
    Nat → Nat → List Char → List Nat → RetryResult
  | 0, _, lastError, sleeps =>
    { result := Except.error (failedAfterMsg lastError),
      attempts := MAX_RETRIES, sleeps := sleeps }
  | remaining + 1, attempt, _, sleeps =>
    match oracle attempt with
    | Except.ok r => { result := Except.ok r, attempts := attempt, sleeps := sleeps }
    | Except.error e =>
      if attempt < MAX_RETRIES then
        retryLoop oracle remaining (attempt + 1) e
          (sleeps ++ [RETRY_DELAY_BASE * 2 ^ (attempt - 1)])
      else
        retryLoop oracle remaining (attempt + 1) e sleeps

/-- Model of `AnthropicClient.makeRequestWithRetry`: up to `MAX_RETRIES`
attempts, exponential backoff between them, and a wrapping error after
exhaustion.  The `oracle` gives the outcome of the i-th attempt. -/
def makeRequestWithRetry (oracle : Nat → Except (List Char) AnthropicResponse) :
    RetryResult :=
  retryLoop oracle MAX_RETRIES 1 "No attempts made".toList []

/-- Commentary style enum (types.ts, `COMMENTARY_STYLES`). -/
inductive CommentaryStyle where
  | constructive
  | encouraging
  | analytical
  | brief
  | custom
deriving DecidableEq, Repr

/-- Preset commentary prompts (types.ts, `COMMENTARY_PRESETS`).  The
record has no entry for `custom`; in JavaScript the lookup
`COMMENTARY_PRESETS[style]` then yields `undefined`, modelled as
`none`. -/
def COMMENTARY_PRESETS : CommentaryStyle → Option (List Char)
  | CommentaryStyle.constructive => some "Provide balanced feedback on this freewriting, noting strengths and areas for development. Consider the flow of ideas, creativity, and any interesting themes that emerged.".toList
  | CommentaryStyle.encouraging => some "Offer positive, supportive observations about this freewriting session. Focus on what worked well, creative insights, and encouraging the writer to continue exploring these ideas.".toList
  | CommentaryStyle.analytical => some "Analyze the writing structure, themes, and patterns in this freewriting. Look at the progression of thoughts, recurring concepts, and the overall coherence of ideas.".toList
  | CommentaryStyle.brief => some "Give 2-3 concise observations about this freewriting session. Keep it short but insightful.".toList
  | CommentaryStyle.custom => none

/-- JavaScript truthiness of an optional string: `undefined` and the
empty string are falsy. -/
def jsTruthyOpt (o : Option (List Char)) : Bool :=
  match o with
  | none => false
  | some s => !(s = [])

/-- Resolution of the commentary prompt in `AnthropicClient.cleanupText`
(lines 36-44): starts as the empty string; when commentary is enabled it
becomes the custom prompt if the style is custom and the custom prompt
is truthy, and otherwise the preset looked up by style — which is
`undefined` (`none`) for the custom style. -/
def commentaryPromptOf (enableCommentary : Bool) (commentaryStyle : CommentaryStyle)
    (customCommentaryPrompt : Option (List Char)) : Option (List Char) :=
  if enableCommentary then
    if commentaryStyle == CommentaryStyle.custom && jsTruthyOpt customCommentaryPrompt then
      customCommentaryPrompt
    else
      COMMENTARY_PRESETS commentaryStyle
  else
    some []

/-- Anthropic API limits (types.ts, `ANTHROPIC_LIMITS`). -/
def MAX_CHARACTERS : Nat := 680000

/-- Maximum input tokens (types.ts, `ANTHROPIC_LIMITS.MAX_TOKENS`). -/
def MAX_TOKENS : Nat := 200000

/-- Default maximum output tokens per request. -/
def DEFAULT_MAX_OUTPUT_TOKENS : Nat := 4000

/-- JavaScript template interpolation of a possibly-undefined string:
`undefined` prints as the literal text `undefined`. -/
def interpOpt (o : Option (List Char)) : List Char :=
  match o with
  | some s => s
  | none => "undefined".toList

/-- System prompt assembled by `AnthropicClient.cleanupText`
(lines 46-66): cleanup instruction, optional commentary instruction
(interpolating the resolved commentary prompt), and the strict
output-format contract with the literal markers. -/
def buildSystemPrompt (cleanupPrompt : List Char) (enableCommentary : Bool)
    (commentaryPrompt : Option (List Char)) : List Char :=
  cleanupPrompt ++ "\n\n".toList ++
  (if enableCommentary then
     "After cleaning the text, also provide commentary based on this instruction: ".toList ++
       interpOpt commentaryPrompt
   else []) ++
  "\n\nCRITICAL OUTPUT REQUIREMENTS - YOU MUST FOLLOW THIS EXACT FORMAT:\n\n===CLEANED TEXT===\n[Put the cleaned up text here]\n- Fix spelling, grammar, and punctuation errors\n- Add line breaks and paragraphs as appropriate for readability\n- Preserve any existing markdown formatting (bold, italics, links, etc.)\n- Do not add quotation marks or any wrapper text\n===END CLEANED TEXT===\n\n".toList ++
  (if enableCommentary then
     "\n===COMMENTARY===\n[Put your commentary here based on the instruction above]\n===END COMMENTARY===\n".toList
   else []) ++
  "\n\nYou MUST use exactly these markers. Do not deviate from this format.".toList

/-- Request payload for the messages endpoint (types.ts,
`AnthropicRequest`): single user message and single system block. -/
structure AnthropicRequest where
  model : List Char
  max_tokens : Nat
  userMessage : List Char
  system : List Char
deriving Repr

/-- Successful result of `AnthropicClient.cleanupText`. -/
structure ClientCleanupOk where
  cleanedText : List Char
  commentary : Option (List Char)
  usage : Usage
deriving DecidableEq, Repr

/-- Outcome of a whole `AnthropicClient.cleanupText` call: result plus
the observable network behaviour (number of HTTP attempts made and
backoff sleeps performed). -/
structure ClientCleanupOutcome where
  result : Except (List Char) ClientCleanupOk
  attempts : Nat
  sleeps : List Nat
deriving Repr

/-- Error message when the input exceeds the character ceiling
(anthropicClient.ts line 33). -/
def clientTooLongMsg : List Char :=
  "Text too long. Maximum ".toList ++ (toString MAX_CHARACTERS).toList ++
    " characters allowed.".toList

/-- Model of `AnthropicClient.cleanupText` (anthropicClient.ts lines
20-85): validate the key and the input length, resolve the commentary
prompt, build the request, run the retry loop over the HTTP oracle,
extract the first content block's text and parse the structured
response. -/
def cleanupText (apiKey text model cleanupPrompt : List Char)
    (enableCommentary : Bool) (commentaryStyle : CommentaryStyle)
    (customCommentaryPrompt : Option (List Char))
    (oracle : Nat → HttpOutcome) : ClientCleanupOutcome :=
  if apiKey = [] then
    { result := Except.error "API key is required".toList, attempts := 0, sleeps := [] }
  else if MAX_CHARACTERS < text.length then
    { result := Except.error clientTooLongMsg, attempts := 0, sleeps := [] }
  else
    let commentaryPrompt := commentaryPromptOf enableCommentary commentaryStyle customCommentaryPrompt
    let _request : AnthropicRequest :=
      { model := model, max_tokens := DEFAULT_MAX_OUTPUT_TOKENS,
        userMessage := "Please process this freewriting text according to the format requirements:\n\n".toList ++ text,
        system := buildSystemPrompt cleanupPrompt enableCommentary commentaryPrompt }
    let rr := makeRequestWithRetry (fun i => makeRequest (oracle i))
    match rr.result with
    | Except.error e => { result := Except.error e, attempts := rr.attempts, sleeps := rr.sleeps }
    | Except.ok resp =>
      match extractTextFromResponse resp with
      | Except.error e => { result := Except.error e, attempts := rr.attempts, sleeps := rr.sleeps }
      | Except.ok responseText =>
        match parseStructuredResponse responseText enableCommentary with
        | Except.error e => { result := Except.error e, attempts := rr.attempts, sleeps := rr.sleeps }
        | Except.ok parsed =>
          { result := Except.ok { cleanedText := parsed.cleanedText,
                                  commentary := parsed.commentary,
                                  usage := resp.usage },
            attempts := rr.attempts, sleeps := rr.sleeps }

/-- Plugin settings (types.ts, `FreewritingCleanupSettings`). -/
structure FreewritingCleanupSettings where
  apiKey : List Char
  model : List Char
  cleanupPrompt : List Char
  enableCommentary : Bool
  commentaryStyle : CommentaryStyle
  customCommentaryPrompt : List Char
deriving Repr

/-- Errors thrown by `CleanupService.cleanupText`.  The constructors
`apiKeyError` and `textTooLongError` stand for the `ApiKeyError` and
`TextTooLongError` classes imported from `src/errors.ts`, a file whose
source is not present in the repository snapshot; they are message-
carrying `Error` subclasses used purely as tags, so they are modelled
here as tagged messages.  `plainError` is a plain `Error`, and
`clientError` is an error propagated unchanged from the API client. -/
inductive ServiceError where
  | plainError (msg : List Char)
  | apiKeyError (msg : List Char)
  | textTooLongError (msg : List Char)
  | clientError (msg : List Char)
deriving DecidableEq, Repr

/-- Result record of a cleanup operation (types.ts, `CleanupResult`).
The wall-clock `timestamp` and `duration` fields are host-time values
with no behavioural role and are elided. -/
structure CleanupResult where
  originalText : List Char
  cleanedText : List Char
  commentary : Option (List Char)
  model : List Char
  tokensInput : Nat
  tokensOutput : Nat
deriving DecidableEq, Repr

/-- Outcome of a whole `CleanupService.cleanupText` call. -/
structure ServiceCleanupOutcome where
  result : Except ServiceError CleanupResult
  attempts : Nat
  sleeps : List Nat
deriving Repr

/-- Message of the `TextTooLongError` thrown by the service
(cleanupService.ts line 62). -/
def serviceTooLongMsg (textLength : Nat) : List Char :=
  "Selected text is too long (".toList ++ (toString textLength).toList ++
    " characters). Maximum allowed: ".toList ++ (toString MAX_CHARACTERS).toList ++
    " characters.".toList

/-- Model of `AnthropicClient.validateApiKey`: the key exists and has
non-blank content. -/
def validateApiKey (apiKey : List Char) : Bool :=
  !(jsTrim apiKey = [])

/-- Model of `CleanupService.cleanupText` (cleanupService.ts lines
50-97): reject blank selections, an unconfigured key and over-long text
before any network activity, then delegate to the client and assemble a
`CleanupResult`.  `apiKey` is the key held by the underlying client. -/
def serviceCleanupText (apiKey text : List Char)
    (settings : FreewritingCleanupSettings)
    (oracle : Nat → HttpOutcome) : ServiceCleanupOutcome :=
  if jsTrim text = [] then
    { result := Except.error (ServiceError.plainError "No text selected for cleanup".toList),
      attempts := 0, sleeps := [] }
  else if !validateApiKey apiKey then
    { result := Except.error (ServiceError.apiKeyError "API key is not configured. Please check your plugin settings.".toList),
      attempts := 0, sleeps := [] }
  else if text.length > MAX_CHARACTERS then
    { result := Except.error (ServiceError.textTooLongError (serviceTooLongMsg text.length)),
      attempts := 0, sleeps := [] }
  else
    let out := cleanupText apiKey text settings.model settings.cleanupPrompt
      settings.enableCommentary settings.commentaryStyle
      (some settings.customCommentaryPrompt) oracle
    match out.result with
    | Except.error e =>
      { result := Except.error (ServiceError.clientError e),
        attempts := out.attempts, sleeps := out.sleeps }
    | Except.ok ok =>
      { result := Except.ok { originalText := text, cleanedText := ok.cleanedText,
                              commentary := ok.commentary, model := settings.model,
                              tokensInput := ok.usage.input_tokens,
                              tokensOutput := ok.usage.output_tokens },
        attempts := out.attempts, sleeps := out.sleeps }

/-- Model of `CleanupService.formatCleanupResult` (cleanupService.ts
lines 145-153): the cleanup section, then — only when the commentary
field is truthy (present and non-empty) — the commentary section. -/
def formatCleanupResult (result : CleanupResult) : List Char :=
  let formatted := "\n\n---\n\nAI Cleanup:\n\n".toList ++ result.cleanedText
  match result.commentary with
  | some c =>
    if !(c = []) then formatted ++ ("\n\n---\n\nAI Commentary:\n\n".toList ++ c)
    else formatted
  | none => formatted

/-- Result of `CleanupService.validateSettings`. -/
structure ValidationResult where
  isValid : Bool
  errors : List (List Char)
deriving DecidableEq, Repr

/-- Model of `CleanupService.validateSettings` (src/unnamed/part_000
lines 172-200): collect an error message per missing required setting,
including the custom-commentary requirement. -/
def validateSettings (settings : FreewritingCleanupSettings) : ValidationResult :=
  let errors :=
    (if jsTrim settings.apiKey = [] then ["API key is required".toList] else []) ++
    (if settings.model = [] then ["Model selection is required".toList] else []) ++
    (if jsTrim settings.cleanupPrompt = [] then ["Cleanup prompt is required".toList] else []) ++
    (if settings.enableCommentary &&
        settings.commentaryStyle == CommentaryStyle.custom &&
        jsTrim settings.customCommentaryPrompt = [] then
       ["Custom commentary prompt is required when commentary style is \"custom\"".toList]
     else [])
  { isValid := errors = [], errors := errors }

/-- Model metadata from the provider (types.ts, `ModelInfo`). -/
structure ModelInfo where
  id : List Char
  display_name : List Char
  created_at : List Char
  type : List Char
deriving DecidableEq, Repr

/-- Simplified model option for the UI (modelService.ts,
`ModelOption`). -/
structure ModelOption where
  id : List Char
  displayName : List Char
deriving DecidableEq, Repr

/-- Cached model list with its fetch timestamp (types.ts,
`ModelCache`). -/
structure ModelCache where
  models : List ModelInfo
  fetchedAt : Int
deriving DecidableEq, Repr

/-- Mutable state of a `ModelService` instance: the cache field and the
timestamp of the last error notice. -/
structure ModelServiceState where
  modelCache : Option ModelCache
  lastErrorNoticeTime : Int
deriving DecidableEq, Repr

/-- Cache TTL in milliseconds (`CACHE_TTL_MS`, 24 hours). -/
def CACHE_TTL_MS : Int := 24 * 60 * 60 * 1000

/-- Notice throttle window in milliseconds
(`ERROR_NOTICE_THROTTLE_MS`, 1 minute). -/
def ERROR_NOTICE_THROTTLE_MS : Int := 60 * 1000

/-- Model of `ModelService.toModelInfo`. -/
def toModelInfo (opt : ModelOption) : ModelInfo :=
  { id := opt.id, display_name := opt.displayName,
    created_at := [], type := "model".toList }

/-- Hardcoded fallback model identifiers (types.ts,
`ANTHROPIC_MODELS`). -/
def ANTHROPIC_MODELS : List (List Char) :=
  ["claude-opus-4-1-20250805".toList,
   "claude-opus-4-20250514".toList,
   "claude-sonnet-4-20250514".toList,
   "claude-3-7-sonnet-latest".toList,
   "claude-3-5-haiku-latest".toList,
   "claude-3-haiku-20240307".toList]

/-- Model of `ModelService.getFallbackModels`: each fallback identifier
used as both id and display name. -/
def getFallbackModels : List ModelOption :=
  ANTHROPIC_MODELS.map (fun id => { id := id, displayName := id })

/-- Model of `ModelService.isCacheValid`: the cache exists and its age
at time `now` is strictly below the TTL. -/
def isCacheValid (st : ModelServiceState) (now : Int) : Bool :=
  match st.modelCache with
  | none => false
  | some cache => now - cache.fetchedAt < CACHE_TTL_MS

/-- Model of `ModelService.updateCache`: replace the cache wholesale,
stamped with the current time. -/
def updateCache (st : ModelServiceState) (models : List ModelInfo)
    (now : Int) : ModelServiceState :=
  { st with modelCache := some { models := models, fetchedAt := now } }

/-- Model of `ModelService.cacheFallbackModels`: store the fallback
list (converted to `ModelInfo`) in the cache and return the fallback
options. -/
def cacheFallbackModels (st : ModelServiceState) (now : Int) :
    List ModelOption × ModelServiceState :=
  (getFallbackModels, updateCache st (getFallbackModels.map toModelInfo) now)

/-- Model of `ModelService.showThrottledErrorNotice`: emit a notice only
when more than the throttle window has elapsed since the last one, and
record the emission time. -/
def showThrottledErrorNotice (st : ModelServiceState) (now : Int) :
    Bool × ModelServiceState :=
  if now - st.lastErrorNoticeTime > ERROR_NOTICE_THROTTLE_MS then
    (true, { st with lastErrorNoticeTime := now })
  else
    (false, st)

/-- Stable insertion used to model `Array.prototype.sort` with the
`localeCompare` comparator `cmp` (host-provided, locale-dependent):
an element is inserted before the first element it need not follow, so
ties keep their original order as ECMAScript requires. -/
def insertByDisplay (cmp : List Char → List Char → Int) (x : ModelOption) :
    List ModelOption → List ModelOption
  | [] => [x]
  | y :: ys =>
    if cmp x.displayName y.displayName ≤ 0 then x :: y :: ys
    else y :: insertByDisplay cmp x ys

/-- Stable sort by display name (comparator `cmp`). -/
def sortByDisplay (cmp : List Char → List Char → Int) :
    List ModelOption → List ModelOption
  | [] => []
  | x :: xs => insertByDisplay cmp x (sortByDisplay cmp xs)

/-- Model of `ModelService.formatModels`: map `ModelInfo` to
`ModelOption` and sort by display name with the host comparator. -/
def formatModels (cmp : List Char → List Char → Int)
    (models : List ModelInfo) : List ModelOption :=
  sortByDisplay cmp (models.map (fun m => { id := m.id, displayName := m.display_name }))

/-- Outcome of one `getAvailableModels` / `refreshModels` call: the
options returned, the updated service state, whether a network fetch
was attempted, and whether a user notice was emitted. -/
structure GetModelsOutcome where
  options : List ModelOption
  state : ModelServiceState
  networkFetched : Bool
  noticeEmitted : Bool
deriving Repr

/-- Shared live-fetch-or-fallback path of `getAvailableModels` (after
the cache check) and `refreshModels`: no key means fallback silently;
otherwise try the fetch (`fetchResult` is its outcome), on success
replace the cache, on failure emit a throttled notice and fall back. -/
def fetchOrFallback (cmp : List Char → List Char → Int)
    (st : ModelServiceState) (now : Int) (apiKeyValid : Bool)
    (fetchResult : Except (List Char) (List ModelInfo)) : GetModelsOutcome :=
  if !apiKeyValid then
    let (opts, st1) := cacheFallbackModels st now
    { options := opts, state := st1, networkFetched := false, noticeEmitted := false }
  else
    match fetchResult with
    | Except.ok data =>
      { options := formatModels cmp data, state := updateCache st data now,
        networkFetched := true, noticeEmitted := false }
    | Except.error _ =>
      let (emitted, st1) := showThrottledErrorNotice st now
      let (opts, st2) := cacheFallbackModels st1 now
      { options := opts, state := st2, networkFetched := true, noticeEmitted := emitted }

/-- Model of `ModelService.getAvailableModels` (modelService.ts lines
72-93): serve a valid cache without touching the network, otherwise
fetch with fallback. -/
def getAvailableModels (cmp : List Char → List Char → Int)
    (st : ModelServiceState) (now : Int) (apiKeyValid : Bool)
    (fetchResult : Except (List Char) (List ModelInfo)) : GetModelsOutcome :=
  if isCacheValid st now then
    match st.modelCache with
    | some cache =>
      { options := formatModels cmp cache.models, state := st,
        networkFetched := false, noticeEmitted := false }
    | none => fetchOrFallback cmp st now apiKeyValid fetchResult
  else
    fetchOrFallback cmp st now apiKeyValid fetchResult

/-- Model of `ModelService.refreshModels` (modelService.ts lines
104-119): always bypass the cache check. -/
def refreshModels (cmp : List Char → List Char → Int)
    (st : ModelServiceState) (now : Int) (apiKeyValid : Bool)
    (fetchResult : Except (List Char) (List ModelInfo)) : GetModelsOutcome :=
  fetchOrFallback cmp st now apiKeyValid fetchResult

/-- Trace of a sequence of failing live fetches through
`refreshModels`: for each call time, whether the user notice was
emitted, threading the service state. -/
def failingFetchNotices (cmp : List Char → List Char → Int)
    (errMsg : List Char) (st : ModelServiceState) :
    List Int → List Bool
  | [] => []
  | t :: ts =>
    let r := refreshModels cmp st t true (Except.error errMsg)
    r.noticeEmitted :: failingFetchNotices cmp errMsg r.state ts

/-- Unfolding of the full retry loop when every attempt errors. -/
theorem retry_all_errors (oracle : Nat → Except (List Char) AnthropicResponse)
    (e1 e2 e3 : List Char)
    (h1 : oracle 1 = Except.error e1) (h2 : oracle 2 = Except.error e2)
    (h3 : oracle 3 = Except.error e3) :
    makeRequestWithRetry oracle =
      { result := Except.error (failedAfterMsg e3), attempts := 3,
        sleeps := [1000, 2000] } := by
  simp [makeRequestWithRetry, MAX_RETRIES, retryLoop, h1, h2, h3, RETRY_DELAY_BASE]

/-- Unfolding of the retry loop when the first two attempts error and
the third succeeds. -/
theorem retry_third_ok (oracle : Nat → Except (List Char) AnthropicResponse)
    (e1 e2 : List Char) (r : AnthropicResponse)
    (h1 : oracle 1 = Except.error e1) (h2 : oracle 2 = Except.error e2)
    (h3 : oracle 3 = Except.ok r) :
    makeRequestWithRetry oracle =
      { result := Except.ok r, attempts := 3, sleeps := [1000, 2000] } := by
  simp [makeRequestWithRetry, MAX_RETRIES, retryLoop, h1, h2, h3, RETRY_DELAY_BASE]

/-- A provider response used as inert payload in counterexamples. -/
def emptyResp : AnthropicResponse := { content := [], usage := { input_tokens := 0, output_tokens := 0 } }

/-- C1 counterexample: with every HTTP attempt returning status 401, the
client does NOT stop after one attempt with no sleep — it makes all 3
attempts and sleeps twice. -/
theorem c1_counterexample :
    (makeRequestWithRetry (fun _ => makeRequest (HttpOutcome.response 401 "Unauthorized".toList emptyResp))).attempts = 3 ∧
    (makeRequestWithRetry (fun _ => makeRequest (HttpOutcome.response 401 "Unauthorized".toList emptyResp))).sleeps = [1000, 2000] ∧
    ¬ ((makeRequestWithRetry (fun _ => makeRequest (HttpOutcome.response 401 "Unauthorized".toList emptyResp))).attempts = 1 ∧
       (makeRequestWithRetry (fun _ => makeRequest (HttpOutcome.response 401 "Unauthorized".toList emptyResp))).sleeps = []) := by
  refine ⟨rfl, rfl, ?_⟩
  intro h
  exact absurd h (by decide)

/-- C1 (amended): a 401 response is not classified as terminal; the
cleanup call retries it like any other failure, making all 3 attempts
with 1000 ms and 2000 ms sleeps, and fails wrapping the last 401
message. -/
theorem c1_theorem (apiKey text model cleanupPrompt : List Char)
    (enableCommentary : Bool) (commentaryStyle : CommentaryStyle)
    (customCommentaryPrompt : Option (List Char))
    (body : List Char) (resp : AnthropicResponse)
    (hkey : apiKey ≠ []) (hlen : text.length ≤ MAX_CHARACTERS) :
    cleanupText apiKey text model cleanupPrompt enableCommentary commentaryStyle
        customCommentaryPrompt (fun _ => HttpOutcome.response 401 body resp) =
      { result := Except.error (failedAfterMsg (apiRequestFailedMsg 401 body)),
        attempts := 3, sleeps := [1000, 2000] } := by
  have hreq : ∀ i : Nat, makeRequest (HttpOutcome.response 401 body resp) =
      Except.error (apiRequestFailedMsg 401 body) := by
    intro _
    simp [makeRequest]
  have hrr := retry_all_errors (fun _ => makeRequest (HttpOutcome.response 401 body resp))
    (apiRequestFailedMsg 401 body) (apiRequestFailedMsg 401 body) (apiRequestFailedMsg 401 body)
    (hreq 1) (hreq 2) (hreq 3)
  simp only [cleanupText, if_neg hkey, if_neg (by omega : ¬ MAX_CHARACTERS < text.length), hrr]

/-- C1 witness: the amended behaviour at a concrete request. -/
theorem c1_witness :
    cleanupText "sk-key".toList "hello".toList "m".toList "clean".toList false
        CommentaryStyle.constructive none
        (fun _ => HttpOutcome.response 401 "Unauthorized".toList emptyResp) =
      { result := Except.error (failedAfterMsg (apiRequestFailedMsg 401 "Unauthorized".toList)),
        attempts := 3, sleeps := [1000, 2000] } :=
  c1_theorem "sk-key".toList "hello".toList "m".toList "clean".toList false
    CommentaryStyle.constructive none "Unauthorized".toList emptyResp
    (by decide) (by decide)

/-- C3: two transient failures then a success return the successful
response after exactly 3 attempts with 1000 ms and 2000 ms sleeps
between them; three failures raise an error wrapping the last
underlying message. -/
theorem c3_theorem :
    (∀ (oracle : Nat → Except (List Char) AnthropicResponse)
       (e1 e2 : List Char) (r : AnthropicResponse),
       oracle 1 = Except.error e1 → oracle 2 = Except.error e2 →
       oracle 3 = Except.ok r →
       makeRequestWithRetry oracle =
         { result := Except.ok r, attempts := 3, sleeps := [1000, 2000] })
    ∧ (∀ (oracle : Nat → Except (List Char) AnthropicResponse)
       (e1 e2 e3 : List Char),
       oracle 1 = Except.error e1 → oracle 2 = Except.error e2 →
       oracle 3 = Except.error e3 →
       makeRequestWithRetry oracle =
         { result := Except.error (failedAfterMsg e3), attempts := 3,
           sleeps := [1000, 2000] }) :=
  ⟨fun oracle e1 e2 r h1 h2 h3 => retry_third_ok oracle e1 e2 r h1 h2 h3,
   fun oracle e1 e2 e3 h1 h2 h3 => retry_all_errors oracle e1 e2 e3 h1 h2 h3⟩

/-- C3 witness: the retry sequence at concrete oracles. -/
theorem c3_witness :
    makeRequestWithRetry
        (fun i => if i = 3 then Except.ok emptyResp else Except.error "boom".toList) =
      { result := Except.ok emptyResp, attempts := 3, sleeps := [1000, 2000] } ∧
    makeRequestWithRetry (fun _ => Except.error "boom".toList) =
      { result := Except.error (failedAfterMsg "boom".toList), attempts := 3,
        sleeps := [1000, 2000] } :=
  ⟨c3_theorem.1 (fun i => if i = 3 then Except.ok emptyResp else Except.error "boom".toList)
     "boom".toList "boom".toList emptyResp rfl rfl rfl,
   c3_theorem.2 (fun _ => Except.error "boom".toList) "boom".toList "boom".toList
     "boom".toList rfl rfl rfl⟩

/-- C5 counterexample: with two content fragments `"a"` and `"b"`, the
raw text handed to the parser is `"a"` — the first fragment only — and
not the concatenation `"ab"` of all fragments. -/
theorem c5_counterexample :
    extractTextFromResponse
        { content := [{ text := "a".toList }, { text := "b".toList }],
          usage := { input_tokens := 0, output_tokens := 0 } } =
      Except.ok "a".toList ∧
    "a".toList ≠ "ab".toList := by
  constructor
  · rfl
  · decide

/-- C5 (amended): the raw text handed to the structured-output parser is
the trimmed text of the FIRST content fragment; the call errors when the
response has no fragments or the first fragment is blank. -/
theorem c5_theorem :
    (∀ (u : Usage),
       extractTextFromResponse { content := [], usage := u } =
         Except.error "No content received from API".toList)
    ∧ (∀ (first : ContentBlock) (rest : List ContentBlock) (u : Usage),
       extractTextFromResponse { content := first :: rest, usage := u } =
         (if jsTrim first.text = [] then Except.error "Empty response from API".toList
          else Except.ok (jsTrim first.text))) :=
  ⟨fun _ => rfl, fun _ _ _ => rfl⟩

/-- Settings exhibiting the C2 failing input: commentary enabled, custom
style, empty custom commentary prompt. -/
def c2Settings : FreewritingCleanupSettings :=
  { apiKey := "sk-key".toList, model := "m".toList,
    cleanupPrompt := "clean this".toList, enableCommentary := true,
    commentaryStyle := CommentaryStyle.custom, customCommentaryPrompt := [] }

/-- An HTTP oracle whose single attempt succeeds with a well-formed
structured response. -/
def c2Oracle : Nat → HttpOutcome := fun _ =>
  HttpOutcome.response 200 []
    { content := [{ text := "===CLEANED TEXT===done===END CLEANED TEXT===".toList }],
      usage := { input_tokens := 3, output_tokens := 4 } }

/-- C2 (code bug): with commentary enabled, custom style and an empty
custom instruction, `validateSettings` flags the configuration as
invalid, but the cleanup dispatch path never invokes it: the call
proceeds to the network (one successful attempt here) and succeeds,
with the commentary instruction resolving to `undefined` (`none`)
because `COMMENTARY_PRESETS` has no entry for the custom style. -/
theorem c2_theorem :
    (validateSettings c2Settings).isValid = false ∧
    commentaryPromptOf true CommentaryStyle.custom (some []) = none ∧
    (serviceCleanupText c2Settings.apiKey "hello".toList c2Settings c2Oracle).attempts = 1 ∧
    (serviceCleanupText c2Settings.apiKey "hello".toList c2Settings c2Oracle).result =
      Except.ok { originalText := "hello".toList, cleanedText := "done".toList,
                  commentary := none, model := "m".toList,
                  tokensInput := 3, tokensOutput := 4 } := by
  refine ⟨by decide, rfl, rfl, ?_⟩
  rfl

/-- Dropping while a predicate that rejects `c` leaves a replicate of
`c` unchanged. -/
theorem dropWhile_replicate_of_neg (p : Char → Bool) (c : Char)
    (hp : p c = false) (n : Nat) :
    (List.replicate n c).dropWhile p = List.replicate n c := by
  induction n with
  | zero => rfl
  | succ n ih => simp [List.replicate_succ, List.dropWhile_cons, hp]

/-- Trimming a replicate of a non-space character leaves it unchanged. -/
theorem jsTrim_replicate_of_neg (c : Char) (hc : isJSSpace c = false) (n : Nat) :
    jsTrim (List.replicate n c) = List.replicate n c := by
  unfold jsTrim
  rw [dropWhile_replicate_of_neg _ _ hc, List.reverse_replicate,
    dropWhile_replicate_of_neg _ _ hc, List.reverse_replicate]

/-- C6: any input longer than the 680000-character ceiling is rejected
by both the client and the service with the input-too-large error,
before any network attempt (0 attempts, no sleeps). -/
theorem c6_theorem :
    (∀ (apiKey text model cleanupPrompt : List Char) (enableCommentary : Bool)
       (commentaryStyle : CommentaryStyle) (customCommentaryPrompt : Option (List Char))
       (oracle : Nat → HttpOutcome),
       apiKey ≠ [] → text.length > MAX_CHARACTERS →
       cleanupText apiKey text model cleanupPrompt enableCommentary commentaryStyle
           customCommentaryPrompt oracle =
         { result := Except.error clientTooLongMsg, attempts := 0, sleeps := [] })
    ∧ (∀ (apiKey text : List Char) (settings : FreewritingCleanupSettings)
       (oracle : Nat → HttpOutcome),
       jsTrim text ≠ [] → validateApiKey apiKey = true → text.length > MAX_CHARACTERS →
       serviceCleanupText apiKey text settings oracle =
         { result := Except.error (ServiceError.textTooLongError (serviceTooLongMsg text.length)),
           attempts := 0, sleeps := [] }) := by
  constructor
  · intro apiKey text model cleanupPrompt ec cs ccp oracle hkey hlen
    simp only [cleanupText, if_neg hkey, if_pos (by omega : MAX_CHARACTERS < text.length)]
  · intro apiKey text settings oracle htext hkey hlen
    simp only [serviceCleanupText, if_neg htext, hkey, Bool.not_true, Bool.false_eq_true,
      if_false, if_pos hlen]

/-- Settings used by the C6 witness. -/
def c6WitnessSettings : FreewritingCleanupSettings :=
  { apiKey := "sk-key".toList, model := "m".toList,
    cleanupPrompt := "clean".toList, enableCommentary := false,
    commentaryStyle := CommentaryStyle.constructive, customCommentaryPrompt := [] }

/-- The C6 witness input exceeds the ceiling. -/
theorem c6Witness_len : (List.replicate 680001 'a').length > MAX_CHARACTERS := by
  rw [List.length_replicate]
  decide

/-- The C6 witness input is not blank. -/
theorem c6Witness_trim : jsTrim (List.replicate 680001 'a') ≠ [] := by
  rw [jsTrim_replicate_of_neg 'a' (by decide) 680001]
  intro h
  have hl := congrArg List.length h
  rw [List.length_replicate] at hl
  exact absurd hl (by decide)

/-- C6 witness: a 680001-character input is rejected with zero attempts
at both layers. -/
theorem c6_witness :
    cleanupText "sk-key".toList (List.replicate 680001 'a') "m".toList "clean".toList
        false CommentaryStyle.constructive none
        (fun _ => HttpOutcome.failure "never used".toList) =
      { result := Except.error clientTooLongMsg, attempts := 0, sleeps := [] } ∧
    serviceCleanupText "sk-key".toList (List.replicate 680001 'a') c6WitnessSettings
        (fun _ => HttpOutcome.failure "never used".toList) =
      { result := Except.error (ServiceError.textTooLongError (serviceTooLongMsg 680001)),
        attempts := 0, sleeps := [] } := by
  constructor
  · exact c6_theorem.1 "sk-key".toList (List.replicate 680001 'a') "m".toList
      "clean".toList false CommentaryStyle.constructive none
      (fun _ => HttpOutcome.failure "never used".toList) (by decide) c6Witness_len
  · have h := c6_theorem.2 "sk-key".toList (List.replicate 680001 'a') c6WitnessSettings
      (fun _ => HttpOutcome.failure "never used".toList) c6Witness_trim (by decide) c6Witness_len
    rw [h, List.length_replicate]

/-- C7: once the cache has been populated by a successful fetch, any two
consecutive get-available-models calls within the 24-hour TTL both
return the fetched list formatted for display, with no network fetch
and no notice on either call. -/
theorem c7_theorem (cmp : List Char → List Char → Int)
    (st0 : ModelServiceState) (t0 now1 now2 : Int) (data : List ModelInfo)
    (k1 k2 : Bool) (f1 f2 : Except (List Char) (List ModelInfo))
    (hvalid0 : isCacheValid st0 t0 = false)
    (h1 : now1 - t0 < CACHE_TTL_MS) (h2 : now2 - t0 < CACHE_TTL_MS) :
    (getAvailableModels cmp st0 t0 true (Except.ok data)).networkFetched = true ∧
    (getAvailableModels cmp (getAvailableModels cmp st0 t0 true (Except.ok data)).state
        now1 k1 f1) =
      { options := formatModels cmp data,
        state := (getAvailableModels cmp st0 t0 true (Except.ok data)).state,
        networkFetched := false, noticeEmitted := false } ∧
    (getAvailableModels cmp (getAvailableModels cmp st0 t0 true (Except.ok data)).state
        now2 k2 f2) =
      { options := formatModels cmp data,
        state := (getAvailableModels cmp st0 t0 true (Except.ok data)).state,
        networkFetched := false, noticeEmitted := false } := by
  have hr0 : getAvailableModels cmp st0 t0 true (Except.ok data) =
      { options := formatModels cmp data, state := updateCache st0 data t0,
        networkFetched := true, noticeEmitted := false } := by
    simp [getAvailableModels, hvalid0, fetchOrFallback]
  rw [hr0]
  refine ⟨rfl, ?_, ?_⟩
  · simp [getAvailableModels, isCacheValid, updateCache, h1]
  · simp [getAvailableModels, isCacheValid, updateCache, h2]

/-- C7 witness: concrete consecutive calls inside the TTL. -/
theorem c7_witness :
    (getAvailableModels (fun _ _ => 0) { modelCache := none, lastErrorNoticeTime := 0 }
        1000 true (Except.ok [])).networkFetched = true ∧
    (getAvailableModels (fun _ _ => 0)
        (getAvailableModels (fun _ _ => 0) { modelCache := none, lastErrorNoticeTime := 0 }
          1000 true (Except.ok [])).state 2000 false (Except.error [])) =
      { options := formatModels (fun _ _ => 0) [],
        state := (getAvailableModels (fun _ _ => 0)
          { modelCache := none, lastErrorNoticeTime := 0 } 1000 true (Except.ok [])).state,
        networkFetched := false, noticeEmitted := false } ∧
    (getAvailableModels (fun _ _ => 0)
        (getAvailableModels (fun _ _ => 0) { modelCache := none, lastErrorNoticeTime := 0 }
          1000 true (Except.ok [])).state 3000 true (Except.ok [])) =
      { options := formatModels (fun _ _ => 0) [],
        state := (getAvailableModels (fun _ _ => 0)
          { modelCache := none, lastErrorNoticeTime := 0 } 1000 true (Except.ok [])).state,
        networkFetched := false, noticeEmitted := false } :=
  c7_theorem (fun _ _ => 0) { modelCache := none, lastErrorNoticeTime := 0 }
    1000 2000 3000 [] false true (Except.error []) (Except.ok [])
    (by decide) (by decide) (by decide)

/-- The static fallback list converted to cached `ModelInfo` records. -/
def fallbackModelInfos : List ModelInfo := getFallbackModels.map toModelInfo

/-- C10: every fallback path (no credential, or failed live fetch, in
both get-available-models and force-refresh) stores the static fallback
list in the cache stamped with the current time; and while that cache
entry is younger than the TTL, every subsequent get-available-models
call returns the cached fallback list with no network fetch, even with
a valid credential and a provider that would now succeed. -/
theorem c10_theorem :
    (∀ (cmp : List Char → List Char → Int) (st : ModelServiceState) (now : Int)
       (f : Except (List Char) (List ModelInfo)),
       isCacheValid st now = false →
       getAvailableModels cmp st now false f =
         { options := getFallbackModels,
           state := { st with modelCache := some { models := fallbackModelInfos, fetchedAt := now } },
           networkFetched := false, noticeEmitted := false })
    ∧ (∀ (cmp : List Char → List Char → Int) (st : ModelServiceState) (now : Int)
       (e : List Char),
       isCacheValid st now = false →
       (getAvailableModels cmp st now true (Except.error e)).options = getFallbackModels ∧
       (getAvailableModels cmp st now true (Except.error e)).state.modelCache =
         some { models := fallbackModelInfos, fetchedAt := now })
    ∧ (∀ (cmp : List Char → List Char → Int) (st : ModelServiceState) (now : Int)
       (f : Except (List Char) (List ModelInfo)),
       (refreshModels cmp st now false f).options = getFallbackModels ∧
       (refreshModels cmp st now false f).state.modelCache =
         some { models := fallbackModelInfos, fetchedAt := now })
    ∧ (∀ (cmp : List Char → List Char → Int) (st : ModelServiceState) (now : Int)
       (e : List Char),
       (refreshModels cmp st now true (Except.error e)).options = getFallbackModels ∧
       (refreshModels cmp st now true (Except.error e)).state.modelCache =
         some { models := fallbackModelInfos, fetchedAt := now })
    ∧ (∀ (cmp : List Char → List Char → Int) (st : ModelServiceState)
       (t0 now : Int) (key : Bool) (f : Except (List Char) (List ModelInfo)),
       st.modelCache = some { models := fallbackModelInfos, fetchedAt := t0 } →
       now - t0 < CACHE_TTL_MS →
       getAvailableModels cmp st now key f =
         { options := formatModels cmp fallbackModelInfos, state := st,
           networkFetched := false, noticeEmitted := false }) := by
  refine ⟨?_, ?_, ?_, ?_, ?_⟩
  · intro cmp st now f hvalid
    simp [getAvailableModels, hvalid, fetchOrFallback, cacheFallbackModels, updateCache,
      fallbackModelInfos]
  · intro cmp st now e hvalid
    constructor
    · simp [getAvailableModels, hvalid, fetchOrFallback, cacheFallbackModels, updateCache,
        showThrottledErrorNotice, fallbackModelInfos]
    · simp [getAvailableModels, hvalid, fetchOrFallback, cacheFallbackModels, updateCache,
        showThrottledErrorNotice, fallbackModelInfos]
  · intro cmp st now f
    constructor <;>
      simp [refreshModels, fetchOrFallback, cacheFallbackModels, updateCache, fallbackModelInfos]
  · intro cmp st now e
    constructor
    · simp [refreshModels, fetchOrFallback, cacheFallbackModels, updateCache,
        showThrottledErrorNotice, fallbackModelInfos]
    · simp [refreshModels, fetchOrFallback, cacheFallbackModels, updateCache,
        showThrottledErrorNotice, fallbackModelInfos]
  · intro cmp st t0 now key f hcache hfresh
    have hvalid : isCacheValid st now = true := by
      simp [isCacheValid, hcache, hfresh]
    simp [getAvailableModels, hvalid, hcache]

/-- C10 witness: the failed-fetch fallback path at a concrete state,
then a cache hit within the TTL with a valid key and a recovered
provider. -/
theorem c10_witness :
    getAvailableModels (fun _ _ => 0) { modelCache := none, lastErrorNoticeTime := 0 }
        1000 false (Except.ok []) =
      { options := getFallbackModels,
        state := { modelCache := some { models := fallbackModelInfos, fetchedAt := 1000 },
                   lastErrorNoticeTime := 0 },
        networkFetched := false, noticeEmitted := false } ∧
    getAvailableModels (fun _ _ => 0)
        { modelCache := some { models := fallbackModelInfos, fetchedAt := 1000 },
          lastErrorNoticeTime := 0 } 2000 true (Except.ok []) =
      { options := formatModels (fun _ _ => 0) fallbackModelInfos,
        state := { modelCache := some { models := fallbackModelInfos, fetchedAt := 1000 },
                   lastErrorNoticeTime := 0 },
        networkFetched := false, noticeEmitted := false } :=
  ⟨c10_theorem.1 (fun _ _ => 0) { modelCache := none, lastErrorNoticeTime := 0 }
     1000 (Except.ok []) (by decide),
   (c10_theorem.2.2.2.2 (fun _ _ => 0)
     { modelCache := some { models := fallbackModelInfos, fetchedAt := 1000 },
       lastErrorNoticeTime := 0 } 1000 2000 true (Except.ok []) rfl (by decide))⟩

/-- Whether a failing refresh emits the notice is exactly the throttle
condition. -/
theorem refreshFail_emitted (cmp : List Char → List Char → Int)
    (msg : List Char) (st : ModelServiceState) (t : Int) :
    (refreshModels cmp st t true (Except.error msg)).noticeEmitted =
      decide (t - st.lastErrorNoticeTime > ERROR_NOTICE_THROTTLE_MS) := by
  simp only [refreshModels, fetchOrFallback, Bool.not_true, Bool.false_eq_true, if_false,
    showThrottledErrorNotice, cacheFallbackModels, updateCache]
  split
  · next h => simp [h]
  · next h => simp [h]

/-- The recorded last-notice time after a failing refresh. -/
theorem refreshFail_last (cmp : List Char → List Char → Int)
    (msg : List Char) (st : ModelServiceState) (t : Int) :
    (refreshModels cmp st t true (Except.error msg)).state.lastErrorNoticeTime =
      if t - st.lastErrorNoticeTime > ERROR_NOTICE_THROTTLE_MS then t
      else st.lastErrorNoticeTime := by
  simp only [refreshModels, fetchOrFallback, Bool.not_true, Bool.false_eq_true, if_false,
    showThrottledErrorNotice, cacheFallbackModels, updateCache]
  split
  · next h => simp [h]
  · next h => simp [h]

/-- Every emitted notice in a run of failing fetches lies more than the
throttle window after the last-notice time the run started with. -/
theorem noticeGap_aux (cmp : List Char → List Char → Int) (msg : List Char) :
    ∀ (ts : List Int) (st : ModelServiceState) (j : Nat),
      (failingFetchNotices cmp msg st ts).getD j false = true →
      ts.getD j 0 - st.lastErrorNoticeTime > ERROR_NOTICE_THROTTLE_MS := by
  intro ts
  induction ts with
  | nil => intro st j h; simp [failingFetchNotices] at h
  | cons t ts ih =>
    intro st j h
    rw [failingFetchNotices] at h
    match j with
    | 0 =>
      rw [List.getD_cons_zero] at h
      rw [refreshFail_emitted] at h
      simp at h
      simpa using h
    | j + 1 =>
      rw [List.getD_cons_succ] at h
      have hrec := ih _ j h
      rw [refreshFail_last] at hrec
      rw [List.getD_cons_succ]
      have hTH : (0 : Int) ≤ ERROR_NOTICE_THROTTLE_MS := by decide
      split at hrec
      · next hcond => omega
      · next hcond => omega

/-- C8: in any run of consecutive failing live fetches, two emitted
notices are always more than the 60-second throttle window apart — so
at most one user notice appears inside any 60-second window. -/
theorem c8_theorem (cmp : List Char → List Char → Int) (msg : List Char)
    (st : ModelServiceState) (times : List Int) (i j : Nat)
    (hij : i < j) (hj : j < times.length)
    (hi : (failingFetchNotices cmp msg st times).getD i false = true)
    (hje : (failingFetchNotices cmp msg st times).getD j false = true) :
    times.getD j 0 - times.getD i 0 > ERROR_NOTICE_THROTTLE_MS := by
  induction times generalizing st i j with
  | nil => simp at hj
  | cons t ts ih =>
    rw [failingFetchNotices] at hi hje
    match i, j with
    | 0, j + 1 =>
      rw [List.getD_cons_zero] at hi
      rw [List.getD_cons_succ] at hje
      rw [refreshFail_emitted] at hi
      simp at hi
      have hrec := noticeGap_aux cmp msg ts _ j hje
      rw [refreshFail_last, if_pos hi] at hrec
      rw [List.getD_cons_succ, List.getD_cons_zero]
      exact hrec
    | i + 1, j + 1 =>
      rw [List.getD_cons_succ] at hi hje
      rw [List.getD_cons_succ, List.getD_cons_succ]
      exact ih _ i j (by omega) (by simpa using hj) hi hje

/-- C8 witness: two failing fetches 100 seconds apart both notify; the
theorem instantiated there shows the gap exceeds the window. -/
theorem c8_witness :
    (failingFetchNotices (fun _ _ => 0) "down".toList
        { modelCache := none, lastErrorNoticeTime := 0 } [100000, 200000]).getD 0 false = true ∧
    (failingFetchNotices (fun _ _ => 0) "down".toList
        { modelCache := none, lastErrorNoticeTime := 0 } [100000, 200000]).getD 1 false = true ∧
    ([100000, 200000] : List Int).getD 1 0 - ([100000, 200000] : List Int).getD 0 0 >
      ERROR_NOTICE_THROTTLE_MS := by
  refine ⟨by decide, by decide, ?_⟩
  exact c8_theorem (fun _ _ => 0) "down".toList
    { modelCache := none, lastErrorNoticeTime := 0 } [100000, 200000] 0 1
    (by decide) (by decide) (by decide) (by decide)

/-- A prefix of an append is a prefix of the first part, or extends it
into the second part. -/
theorem prefix_append_cases {α : Type} (t a b : List α) (h : t <+: a ++ b) :
    t <+: a ∨ ∃ t₂, t = a ++ t₂ ∧ t₂ <+: b := by
  induction a generalizing t with
  | nil => exact Or.inr ⟨t, rfl, by simpa using h⟩
  | cons x a ih =>
    match t with
    | [] => exact Or.inl List.nil_prefix
    | y :: t =>
      rw [List.cons_append, List.cons_prefix_cons] at h
      obtain ⟨rfl, h⟩ := h
      rcases ih t h with h1 | ⟨t₂, rfl, h2⟩
      · exact Or.inl (by rw [List.cons_prefix_cons]; exact ⟨rfl, h1⟩)
      · exact Or.inr ⟨t₂, by simp, h2⟩

/-- An infix of an append lies in the first part, in the second part,
or straddles the boundary. -/
theorem infix_append_cases {α : Type} (t a b : List α) (h : t <:+: a ++ b) :
    t <:+: a ∨ t <:+: b ∨
      ∃ t₁ t₂, t = t₁ ++ t₂ ∧ t₁ ≠ [] ∧ t₂ ≠ [] ∧ t₁ <:+ a ∧ t₂ <+: b := by
  induction a generalizing t with
  | nil => exact Or.inr (Or.inl (by simpa using h))
  | cons x a ih =>
    rw [List.cons_append, List.infix_cons_iff] at h
    rcases h with h | h
    · rcases prefix_append_cases t (x :: a) b h with h1 | ⟨t₂, rfl, h2⟩
      · exact Or.inl h1.isInfix
      · match t₂ with
        | [] => exact Or.inl (by simp)
        | z :: t₂ =>
          exact Or.inr (Or.inr ⟨x :: a, z :: t₂, rfl, by simp, by simp,
            List.suffix_rfl, h2⟩)
    · rcases ih t h with h1 | h1 | ⟨t₁, t₂, rfl, hn1, hn2, hs, hp⟩
      · exact Or.inl (List.infix_cons h1)
      · exact Or.inr (Or.inl h1)
      · exact Or.inr (Or.inr ⟨t₁, t₂, rfl, hn1, hn2, hs.trans (List.suffix_cons x a), hp⟩)

/-- The cleanup section header text. -/
def aiCleanupHeader : List Char := "AI Cleanup:".toList

/-- The commentary section header text. -/
def aiCommentaryHeader : List Char := "AI Commentary:".toList

/-- The full cleanup section lead-in emitted by `formatCleanupResult`. -/
def cleanupSectionHead : List Char := "\n\n---\n\nAI Cleanup:\n\n".toList

/-- The full commentary section lead-in emitted by
`formatCleanupResult`. -/
def commentarySectionHead : List Char := "\n\n---\n\nAI Commentary:\n\n".toList

/-- The commentary header cannot straddle into or sit inside the
cleanup lead-in: any occurrence in the formatted cleanup-only output
already occurs in the cleaned text itself. -/
theorem commentaryHeader_infix_of_append (ct : List Char)
    (h : aiCommentaryHeader <:+: cleanupSectionHead ++ ct) :
    aiCommentaryHeader <:+: ct := by
  rcases infix_append_cases aiCommentaryHeader cleanupSectionHead ct h with
    h1 | h2 | ⟨t₁, t₂, heq, hn1, hn2, hs, _⟩
  · exact absurd h1 (by decide)
  · exact h2
  · exfalso
    have hlen : t₁.length < aiCommentaryHeader.length := by
      have hl := congrArg List.length heq
      rw [List.length_append] at hl
      have : 0 < t₂.length := List.length_pos.mpr hn2
      omega
    have ht₁ : t₁ = aiCommentaryHeader.take t₁.length := by
      rw [heq, List.take_left]
    have hk : ∀ k : Nat, k < aiCommentaryHeader.length → 0 < k →
        ¬ (aiCommentaryHeader.take k <:+ cleanupSectionHead) := by decide
    exact hk t₁.length hlen (List.length_pos.mpr hn1) (ht₁ ▸ hs)

/-- C9: formatting a result with non-empty commentary emits the cleanup
section followed by the commentary section — both headers, in that
order; without commentary the output is the cleanup section only, and
no commentary header appears unless the cleaned text itself contains
one. -/
theorem c9_theorem (r : CleanupResult) :
    (∀ c, r.commentary = some c → c ≠ [] →
       formatCleanupResult r =
         cleanupSectionHead ++ r.cleanedText ++ commentarySectionHead ++ c ∧
       ∃ u v w, formatCleanupResult r =
         u ++ aiCleanupHeader ++ v ++ aiCommentaryHeader ++ w)
    ∧ ((r.commentary = none ∨ r.commentary = some []) →
       formatCleanupResult r = cleanupSectionHead ++ r.cleanedText ∧
       (¬ aiCommentaryHeader <:+: r.cleanedText →
        ¬ aiCommentaryHeader <:+: formatCleanupResult r)) := by
  constructor
  · intro c hc hne
    have hfmt : formatCleanupResult r =
        cleanupSectionHead ++ r.cleanedText ++ commentarySectionHead ++ c := by
      simp only [formatCleanupResult, hc, cleanupSectionHead, commentarySectionHead]
      rw [if_pos (by simpa using hne)]
      simp [List.append_assoc]
    refine ⟨hfmt, "\n\n---\n\n".toList,
      "\n\n".toList ++ r.cleanedText ++ "\n\n---\n\n".toList, "\n\n".toList ++ c, ?_⟩
    rw [hfmt]
    have h1 : cleanupSectionHead = "\n\n---\n\n".toList ++ aiCleanupHeader ++ "\n\n".toList := by
      decide
    have h2 : commentarySectionHead =
        "\n\n---\n\n".toList ++ aiCommentaryHeader ++ "\n\n".toList := by
      decide
    rw [h1, h2]
    simp [List.append_assoc]
  · intro hcomm
    have hfmt : formatCleanupResult r = cleanupSectionHead ++ r.cleanedText := by
      rcases hcomm with hnone | hempty
      · simp [formatCleanupResult, hnone, cleanupSectionHead]
      · simp [formatCleanupResult, hempty, cleanupSectionHead]
    refine ⟨hfmt, ?_⟩
    intro hnot hin
    rw [hfmt] at hin
    exact hnot (commentaryHeader_infix_of_append r.cleanedText hin)

/-- Concrete result with commentary for the C9 witness. -/
def c9WithCommentary : CleanupResult :=
  { originalText := "o".toList, cleanedText := "txt".toList,
    commentary := some "good".toList, model := "m".toList,
    tokensInput := 1, tokensOutput := 2 }

/-- Concrete result without commentary for the C9 witness. -/
def c9NoCommentary : CleanupResult :=
  { originalText := "o".toList, cleanedText := "txt".toList,
    commentary := none, model := "m".toList,
    tokensInput := 1, tokensOutput := 2 }

/-- C9 witness: the two formatting shapes at concrete results. -/
theorem c9_witness :
    (∃ u v w, formatCleanupResult c9WithCommentary =
      u ++ aiCleanupHeader ++ v ++ aiCommentaryHeader ++ w) ∧
    ¬ aiCommentaryHeader <:+: formatCleanupResult c9NoCommentary :=
  ⟨((c9_theorem c9WithCommentary).1 "good".toList rfl (by decide)).2,
   ((c9_theorem c9NoCommentary).2 (Or.inl rfl)).2 (by decide)⟩

/-- Characterization of `takeUntil`: it returns exactly the prefix up to
the first occurrence of `endm`. -/
theorem takeUntil_eq_some_iff (endm : List Char) :
    ∀ (s c : List Char),
      takeUntil endm s = some c ↔
        (c <+: s ∧ endm <+: s.drop c.length ∧
          ∀ k, k < c.length → ¬ endm <+: s.drop k) := by
  intro s
  induction s with
  | nil =>
    intro c
    rw [takeUntil]
    by_cases h : endm.isPrefixOf ([] : List Char)
    · rw [if_pos h]
      have hend : endm <+: ([] : List Char) := List.isPrefixOf_iff_prefix.mp h
      constructor
      · rintro hc
        obtain rfl : ([] : List Char) = c := Option.some.inj hc
        exact ⟨ List.nil_prefix, by simpa using hend, by intro k hk; simp at hk⟩
      · rintro ⟨hc, _, _⟩
        obtain rfl : c = [] := List.prefix_nil.mp hc
        rfl
    · rw [if_neg h]
      constructor
      · rintro ⟨⟩
      · rintro ⟨hc, hend, _⟩
        obtain rfl : c = [] := List.prefix_nil.mp hc
        exact absurd ( List.isPrefixOf_iff_prefix.mpr (by simpa using hend)) h
  | cons a rest ih =>
    intro c
    rw [takeUntil]
    by_cases h : endm.isPrefixOf (a :: rest)
    · rw [if_pos h]
      have hend : endm <+: a :: rest := List.isPrefixOf_iff_prefix.mp h
      constructor
      · rintro hc
        obtain rfl : ([] : List Char) = c := Option.some.inj hc
        exact ⟨ List.nil_prefix, by simpa using hend, by intro k hk; simp at hk⟩
      · rintro ⟨hc, _, hmin⟩
        match c with
        | [] => rfl
        | y :: c => exact absurd (by simpa using hend) (hmin 0 (by simp))
    · rw [if_neg h]
      have hnot : ¬ endm <+: a :: rest :=
        fun hp => h ( List.isPrefixOf_iff_prefix.mpr hp)
      constructor
      · intro hc
        obtain ⟨c', hc', rfl⟩ := Option.map_eq_some'.mp hc
        obtain ⟨h1, h2, h3⟩ := (ih c').mp hc'
        refine ⟨by rw [List.cons_prefix_cons]; exact ⟨rfl, h1⟩, by simpa using h2, ?_⟩
        intro k hk
        match k with
        | 0 => simpa using hnot
        | k + 1 =>
          rw [List.drop_succ_cons]
          exact h3 k (by simpa using hk)
      · rintro ⟨h1, h2, h3⟩
        match c with
        | [] => exact absurd (by simpa using h2) hnot
        | y :: c =>
          rw [List.cons_prefix_cons] at h1
          obtain ⟨rfl, h1⟩ := h1
          have hrec : takeUntil endm rest = some c := by
            refine (ih c).mpr ⟨h1, by simpa using h2, ?_⟩
            intro k hk
            have := h3 (k + 1) (by simpa using hk)
            simpa using this
          rw [hrec]
          rfl

/-- `takeUntil` fails exactly when the end marker occurs nowhere. -/
theorem takeUntil_eq_none_iff (endm : List Char) :
    ∀ s, takeUntil endm s = none ↔ ∀ j, ¬ endm <+: s.drop j := by
  intro s
  induction s with
  | nil =>
    rw [takeUntil]
    by_cases h : endm.isPrefixOf ([] : List Char)
    · rw [if_pos h]
      constructor
      · rintro ⟨⟩
      · intro hall
        exact absurd ( List.isPrefixOf_iff_prefix.mp h) (by simpa using hall 0)
    · rw [if_neg h]
      constructor
      · intro _ j
        simpa using fun hp => h ( List.isPrefixOf_iff_prefix.mpr hp)
      · intro _
        rfl
  | cons a rest ih =>
    rw [takeUntil]
    by_cases h : endm.isPrefixOf (a :: rest)
    · rw [if_pos h]
      constructor
      · rintro ⟨⟩
      · intro hall
        exact absurd ( List.isPrefixOf_iff_prefix.mp h) (by simpa using hall 0)
    · rw [if_neg h]
      have hnot : ¬ endm <+: a :: rest :=
        fun hp => h ( List.isPrefixOf_iff_prefix.mpr hp)
      constructor
      · intro hc j
        have hrest := ih.mp (Option.map_eq_none'.mp hc)
        match j with
        | 0 => simpa using hnot
        | j + 1 =>
          rw [List.drop_succ_cons]
          exact hrest j
      · intro hall
        rw [Option.map_eq_none']
        refine ih.mpr ?_
        intro j
        have := hall (j + 1)
        rwa [List.drop_succ_cons] at this

/-- The leftmost-match condition of the regex at position `i`: the start
marker occurs at `i` and the end marker occurs at or after the end of
that start-marker occurrence. -/
def MatchStartAt (startm endm s : List Char) (i : Nat) : Prop :=
  startm <+: s.drop i ∧ ∃ j, i + startm.length ≤ j ∧ endm <+: s.drop j

/-- Shifting the match condition across a cons cell. -/
theorem matchStartAt_cons_succ (startm endm : List Char) (a : Char)
    (rest : List Char) (i : Nat) :
    MatchStartAt startm endm (a :: rest) (i + 1) ↔
      MatchStartAt startm endm rest i := by
  unfold MatchStartAt
  rw [List.drop_succ_cons]
  constructor
  · rintro ⟨h1, j, hj, hp⟩
    match j with
    | 0 => omega
    | j + 1 =>
      rw [List.drop_succ_cons] at hp
      exact ⟨h1, j, by omega, hp⟩
  · rintro ⟨h1, j, hj, hp⟩
    refine ⟨h1, j + 1, by omega, ?_⟩
    rwa [List.drop_succ_cons]

/-- The match condition at position 0 in terms of `takeUntil`. -/
theorem matchStartAt_zero_iff (startm endm s : List Char) :
    MatchStartAt startm endm s 0 ↔
      (startm <+: s ∧ takeUntil endm (s.drop startm.length) ≠ none) := by
  unfold MatchStartAt
  rw [List.drop_zero]
  constructor
  · rintro ⟨h1, j, hj, hp⟩
    refine ⟨h1, fun hn => ?_⟩
    have := (takeUntil_eq_none_iff endm _).mp hn (j - startm.length)
    rw [List.drop_drop] at this
    have heq : startm.length + (j - startm.length) = j := by omega
    rw [heq] at this
    exact this hp
  · rintro ⟨h1, hn⟩
    rcases Option.ne_none_iff_exists'.mp hn with ⟨c, hc⟩
    obtain ⟨_, h2, _⟩ := (takeUntil_eq_some_iff endm _ c).mp hc
    rw [List.drop_drop] at h2
    exact ⟨h1, startm.length + c.length, by omega, h2⟩

/-- The scan finds nothing exactly when no position matches. -/
theorem extractMarked_eq_none_iff (startm endm : List Char) (hs : startm ≠ []) :
    ∀ s, extractMarked startm endm s = none ↔
      ∀ i, ¬ MatchStartAt startm endm s i := by
  intro s
  induction s with
  | nil =>
    constructor
    · rintro - i ⟨h1, -⟩
      rw [List.drop_nil] at h1
      exact hs (List.prefix_nil.mp h1)
    · intro _
      rfl
  | cons a rest ih =>
    rw [extractMarked]
    by_cases hp : startm.isPrefixOf (a :: rest)
    · rw [if_pos hp]
      cases hTU : takeUntil endm ((a :: rest).drop startm.length) with
      | none =>
        show extractMarked startm endm rest = none ↔ _
        rw [ih]
        have h0 : ¬ MatchStartAt startm endm (a :: rest) 0 := by
          rw [matchStartAt_zero_iff]
          rintro ⟨-, hne⟩
          exact hne hTU
        constructor
        · intro hall i
          match i with
          | 0 => exact h0
          | i + 1 =>
            rw [matchStartAt_cons_succ]
            exact hall i
        · intro hall i
          have := hall (i + 1)
          rwa [matchStartAt_cons_succ] at this
      | some content =>
        have h0 : MatchStartAt startm endm (a :: rest) 0 := by
          rw [matchStartAt_zero_iff]
          exact ⟨ List.isPrefixOf_iff_prefix.mp hp, by rw [hTU]; simp⟩
        constructor
        · rintro ⟨⟩
        · intro hall
          exact absurd h0 (hall 0)
    · rw [if_neg hp]
      show extractMarked startm endm rest = none ↔ _
      rw [ih]
      have h0 : ¬ MatchStartAt startm endm (a :: rest) 0 := by
        rw [matchStartAt_zero_iff]
        rintro ⟨h1, -⟩
        exact hp ( List.isPrefixOf_iff_prefix.mpr h1)
      constructor
      · intro hall i
        match i with
        | 0 => exact h0
        | i + 1 =>
          rw [matchStartAt_cons_succ]
          exact hall i
      · intro hall i
        have := hall (i + 1)
        rwa [matchStartAt_cons_succ] at this

/-- The scan returns `c` exactly when some position `i` is the first
match and `c` is the text from there to the first end marker. -/
theorem extractMarked_eq_some_iff (startm endm : List Char) (hs : startm ≠ []) :
    ∀ (s c : List Char),
      extractMarked startm endm s = some c ↔
        ∃ i, MatchStartAt startm endm s i ∧
          (∀ i', i' < i → ¬ MatchStartAt startm endm s i') ∧
          takeUntil endm (s.drop (i + startm.length)) = some c := by
  intro s
  induction s with
  | nil =>
    intro c
    constructor
    · rintro ⟨⟩
    · rintro ⟨i, ⟨h1, -⟩, -, -⟩
      rw [List.drop_nil] at h1
      exact (hs (List.prefix_nil.mp h1)).elim
  | cons a rest ih =>
    intro c
    rw [extractMarked]
    by_cases hp : startm.isPrefixOf (a :: rest)
    · rw [if_pos hp]
      cases hTU : takeUntil endm ((a :: rest).drop startm.length) with
      | some content =>
        have h0 : MatchStartAt startm endm (a :: rest) 0 := by
          rw [matchStartAt_zero_iff]
          exact ⟨ List.isPrefixOf_iff_prefix.mp hp, by rw [hTU]; simp⟩
        constructor
        · intro hc
          obtain rfl : content = c := Option.some.inj hc
          refine ⟨0, h0, by omega, ?_⟩
          rw [Nat.zero_add]
          exact hTU
        · rintro ⟨i, hM, hmin, hT⟩
          match i with
          | 0 =>
            rw [Nat.zero_add, hTU] at hT
            exact hT
          | i + 1 => exact absurd h0 (hmin 0 (by omega))
      | none =>
        show extractMarked startm endm rest = some c ↔ _
        rw [ih c]
        have h0 : ¬ MatchStartAt startm endm (a :: rest) 0 := by
          rw [matchStartAt_zero_iff]
          rintro ⟨-, hne⟩
          exact hne hTU
        constructor
        · rintro ⟨i, hM, hmin, hT⟩
          refine ⟨i + 1, (matchStartAt_cons_succ startm endm a rest i).mpr hM, ?_, ?_⟩
          · intro i' hi'
            match i' with
            | 0 => exact h0
            | i' + 1 =>
              rw [matchStartAt_cons_succ]
              exact hmin i' (by omega)
          · have heq : (i + 1) + startm.length = (i + startm.length) + 1 := by omega
            rw [heq, List.drop_succ_cons]
            exact hT
        · rintro ⟨i, hM, hmin, hT⟩
          match i with
          | 0 => exact absurd hM h0
          | i + 1 =>
            refine ⟨i, (matchStartAt_cons_succ startm endm a rest i).mp hM, ?_, ?_⟩
            · intro i' hi'
              have := hmin (i' + 1) (by omega)
              rwa [matchStartAt_cons_succ] at this
            · have heq : (i + 1) + startm.length = (i + startm.length) + 1 := by omega
              rw [heq, List.drop_succ_cons] at hT
              exact hT
    · rw [if_neg hp]
      show extractMarked startm endm rest = some c ↔ _
      rw [ih c]
      have h0 : ¬ MatchStartAt startm endm (a :: rest) 0 := by
        rw [matchStartAt_zero_iff]
        rintro ⟨h1, -⟩
        exact hp ( List.isPrefixOf_iff_prefix.mpr h1)
      constructor
      · rintro ⟨i, hM, hmin, hT⟩
        refine ⟨i + 1, (matchStartAt_cons_succ startm endm a rest i).mpr hM, ?_, ?_⟩
        · intro i' hi'
          match i' with
          | 0 => exact h0
          | i' + 1 =>
            rw [matchStartAt_cons_succ]
            exact hmin i' (by omega)
        · have heq : (i + 1) + startm.length = (i + startm.length) + 1 := by omega
          rw [heq, List.drop_succ_cons]
          exact hT
      · rintro ⟨i, hM, hmin, hT⟩
        match i with
        | 0 => exact absurd hM h0
        | i + 1 =>
          refine ⟨i, (matchStartAt_cons_succ startm endm a rest i).mp hM, ?_, ?_⟩
          · intro i' hi'
            have := hmin (i' + 1) (by omega)
            rwa [matchStartAt_cons_succ] at this
          · have heq : (i + 1) + startm.length = (i + startm.length) + 1 := by omega
            rw [heq, List.drop_succ_cons] at hT
            exact hT

/-- A prefix of a suffix splits the list at explicit indices. -/
theorem prefix_drop_decomp (p s : List Char) (n : Nat) (h : p <+: s.drop n) :
    s.drop n = p ++ s.drop (n + p.length) := by
  obtain ⟨t, ht⟩ := h
  have h2 := congrArg (List.drop p.length) ht
  rw [List.drop_left] at h2
  rw [List.drop_drop] at h2
  rw [← ht, h2]

/-- Reassembling a list from a start marker, content and end marker
found at explicit positions. -/
theorem reassemble (st en s c : List Char) (i : Nat)
    (h1 : st <+: s.drop i)
    (h2 : c <+: s.drop (i + st.length))
    (h3 : en <+: s.drop (i + st.length + c.length)) :
    s = s.take i ++ st ++ c ++ en ++
      s.drop (i + st.length + c.length + en.length) := by
  conv_lhs => rw [← List.take_append_drop i s]
  rw [prefix_drop_decomp st s i h1]
  rw [prefix_drop_decomp c s (i + st.length) h2]
  rw [prefix_drop_decomp en s (i + st.length + c.length) h3]
  simp [List.append_assoc]

/-- A four-way decomposition witnesses the match condition at the
length of its leading part. -/
theorem decomp_matchStartAt (st en s a c b : List Char)
    (hs : s = a ++ st ++ c ++ en ++ b) :
    MatchStartAt st en s a.length := by
  constructor
  · have h : s = a ++ (st ++ (c ++ (en ++ b))) := by
      rw [hs]; simp [List.append_assoc]
    rw [h, List.drop_left]
    exact ⟨c ++ (en ++ b), by simp [List.append_assoc]⟩
  · refine ⟨a.length + st.length + c.length, by omega, ?_⟩
    have h : s = (a ++ st ++ c) ++ (en ++ b) := by
      rw [hs]; simp [List.append_assoc]
    have hl : a.length + st.length + c.length = (a ++ st ++ c).length := by
      simp
      omega
    rw [h, hl, List.drop_left]
    exact ⟨b, rfl⟩

/-- Conversely, the match condition at `i` yields a four-way
decomposition whose leading part has length `i`. -/
theorem decomp_of_matchStartAt (st en s : List Char)
    (hst : st ≠ []) (hen : en ≠ []) (i : Nat)
    (hM : MatchStartAt st en s i) :
    ∃ c₂ b₂, s = s.take i ++ st ++ c₂ ++ en ++ b₂ ∧ (s.take i).length = i := by
  obtain ⟨hpre, j, hj, henp⟩ := hM
  have hstpos : 0 < st.length := List.length_pos.mpr hst
  have hjlt : j < s.length := by
    by_contra hge
    push_neg at hge
    rw [List.drop_eq_nil_of_le hge] at henp
    exact hen (List.prefix_nil.mp henp)
  have hmidpre : (s.drop (i + st.length)).take (j - (i + st.length)) <+:
      s.drop (i + st.length) := List.take_prefix _ _
  have hmidlen : ((s.drop (i + st.length)).take (j - (i + st.length))).length =
      j - (i + st.length) := by
    rw [List.length_take, List.length_drop]
    omega
  have h3 : en <+: s.drop (i + st.length +
      ((s.drop (i + st.length)).take (j - (i + st.length))).length) := by
    rw [hmidlen]
    have heq : i + st.length + (j - (i + st.length)) = j := by omega
    rw [heq]
    exact henp
  refine ⟨(s.drop (i + st.length)).take (j - (i + st.length)), _,
    reassemble st en s _ i hpre hmidpre h3, ?_⟩
  rw [List.length_take]
  omega

/-- Spec-side reading of "the cleaned-text marker pair is present":
the response splits around one start/end marker pair. -/
def PairPresent (s : List Char) : Prop :=
  ∃ a c b, s = a ++ CLEANED_TEXT_START ++ c ++ CLEANED_TEXT_END ++ b

/-- Spec-side reading of "the text between the first marker pair":
`c` sits between the two markers, no pair starts earlier, and between
the chosen start marker and `c`'s end marker no earlier end marker
occurs (shortest content at the leftmost start). -/
def FirstPairContent (s c : List Char) : Prop :=
  ∃ a b, s = a ++ CLEANED_TEXT_START ++ c ++ CLEANED_TEXT_END ++ b ∧
    (∀ a₂ c₂ b₂, s = a₂ ++ CLEANED_TEXT_START ++ c₂ ++ CLEANED_TEXT_END ++ b₂ →
      a.length ≤ a₂.length) ∧
    (∀ c₂ b₂, s = a ++ CLEANED_TEXT_START ++ c₂ ++ CLEANED_TEXT_END ++ b₂ →
      c.length ≤ c₂.length)

/-- The marker pair is present exactly when some position matches. -/
theorem pairPresent_iff_exists_match (s : List Char) :
    PairPresent s ↔ ∃ i, MatchStartAt CLEANED_TEXT_START CLEANED_TEXT_END s i := by
  constructor
  · rintro ⟨a, c, b, hs⟩
    exact ⟨a.length, decomp_matchStartAt _ _ s a c b hs⟩
  · rintro ⟨i, hM⟩
    obtain ⟨c₂, b₂, hdec, -⟩ :=
      decomp_of_matchStartAt _ _ s (by decide) (by decide) i hM
    exact ⟨s.take i, c₂, b₂, hdec⟩

/-- Soundness of the scan against the spec-side first-pair reading. -/
theorem firstPairContent_of_extract (s c : List Char)
    (h : extractMarked CLEANED_TEXT_START CLEANED_TEXT_END s = some c) :
    FirstPairContent s c := by
  obtain ⟨i, hM, hmin, hT⟩ :=
    (extractMarked_eq_some_iff _ _ (by decide) s c).mp h
  obtain ⟨hpre, -⟩ := hM
  obtain ⟨hc, hen, hmink⟩ := (takeUntil_eq_some_iff _ _ c).mp hT
  have hil : i < s.length := by
    by_contra hge
    push_neg at hge
    rw [List.drop_eq_nil_of_le hge] at hpre
    exact absurd (List.prefix_nil.mp hpre) (by decide)
  have htakelen : (s.take i).length = i := by
    rw [List.length_take]
    omega
  have hen' : CLEANED_TEXT_END <+:
      s.drop (i + CLEANED_TEXT_START.length + c.length) := by
    rwa [List.drop_drop] at hen
  have hs : s = s.take i ++ CLEANED_TEXT_START ++ c ++ CLEANED_TEXT_END ++
      s.drop (i + CLEANED_TEXT_START.length + c.length +
        CLEANED_TEXT_END.length) :=
    reassemble _ _ s c i hpre hc hen'
  refine ⟨s.take i, _, hs, ?_, ?_⟩
  · intro a₂ c₂ b₂ hdec
    by_contra hlt
    push_neg at hlt
    rw [htakelen] at hlt
    exact hmin a₂.length hlt (decomp_matchStartAt _ _ s a₂ c₂ b₂ hdec)
  · intro c₂ b₂ hdec
    by_contra hlt
    push_neg at hlt
    have hs2 : s = (s.take i ++ CLEANED_TEXT_START) ++
        (c₂ ++ (CLEANED_TEXT_END ++ b₂)) := by
      conv_lhs => rw [hdec]
      simp [List.append_assoc]
    have hl : i + CLEANED_TEXT_START.length =
        (s.take i ++ CLEANED_TEXT_START).length := by
      simp [htakelen]
    have hdrop : s.drop (i + CLEANED_TEXT_START.length) =
        c₂ ++ (CLEANED_TEXT_END ++ b₂) := by
      have hcong := congrArg
        (List.drop (s.take i ++ CLEANED_TEXT_START).length) hs2
      rw [List.drop_left] at hcong
      rw [← hl] at hcong
      exact hcong
    have hbad : CLEANED_TEXT_END <+:
        (s.drop (i + CLEANED_TEXT_START.length)).drop c₂.length := by
      rw [hdrop, List.drop_left]
      exact ⟨b₂, rfl⟩
    exact hmink c₂.length hlt hbad

/-- Completeness of the scan against the spec-side first-pair reading. -/
theorem extract_of_firstPairContent (s c : List Char)
    (h : FirstPairContent s c) :
    extractMarked CLEANED_TEXT_START CLEANED_TEXT_END s = some c := by
  obtain ⟨a, b, hs, hfirst, hminc⟩ := h
  apply (extractMarked_eq_some_iff _ _ (by decide) s c).mpr
  have hdrop : s.drop (a.length + CLEANED_TEXT_START.length) =
      c ++ (CLEANED_TEXT_END ++ b) := by
    have hs2 : s = (a ++ CLEANED_TEXT_START) ++
        (c ++ (CLEANED_TEXT_END ++ b)) := by
      conv_lhs => rw [hs]
      simp [List.append_assoc]
    have hl : a.length + CLEANED_TEXT_START.length =
        (a ++ CLEANED_TEXT_START).length := by simp
    have hcong := congrArg
      (List.drop (a ++ CLEANED_TEXT_START).length) hs2
    rw [List.drop_left] at hcong
    rw [← hl] at hcong
    exact hcong
  refine ⟨a.length, decomp_matchStartAt _ _ s a c b hs, ?_, ?_⟩
  · intro i' hi' hM
    obtain ⟨c₂, b₂, hdec, hlen⟩ :=
      decomp_of_matchStartAt _ _ s (by decide) (by decide) i' hM
    have := hfirst (s.take i') c₂ b₂ hdec
    omega
  · apply (takeUntil_eq_some_iff _ _ c).mpr
    refine ⟨?_, ?_, ?_⟩
    · rw [hdrop]
      exact ⟨CLEANED_TEXT_END ++ b, rfl⟩
    · rw [hdrop, List.drop_left]
      exact ⟨b, rfl⟩
    · intro k hk hcon
      rw [hdrop] at hcon
      rw [List.drop_append_eq_append_drop] at hcon
      rw [Nat.sub_eq_zero_of_le (by omega), List.drop_zero] at hcon
      obtain ⟨w, hw⟩ := hcon
      have hdec2 : s = a ++ CLEANED_TEXT_START ++ c.take k ++
          CLEANED_TEXT_END ++ w := by
        conv_lhs => rw [hs]
        have hsplit : c ++ (CLEANED_TEXT_END ++ b) =
            c.take k ++ (CLEANED_TEXT_END ++ w) := by
          conv_lhs => rw [← List.take_append_drop k c]
          rw [List.append_assoc, hw]
        calc a ++ CLEANED_TEXT_START ++ c ++ CLEANED_TEXT_END ++ b
            = a ++ CLEANED_TEXT_START ++ (c ++ (CLEANED_TEXT_END ++ b)) := by
              simp [List.append_assoc]
          _ = a ++ CLEANED_TEXT_START ++ (c.take k ++ (CLEANED_TEXT_END ++ w)) := by
              rw [hsplit]
          _ = a ++ CLEANED_TEXT_START ++ c.take k ++ CLEANED_TEXT_END ++ w := by
              simp [List.append_assoc]
      have := hminc (c.take k) w hdec2
      rw [List.length_take] at this
      omega

/-- The scan misses exactly when no pair is present. -/
theorem extract_eq_none_iff_not_pairPresent (s : List Char) :
    extractMarked CLEANED_TEXT_START CLEANED_TEXT_END s = none ↔
      ¬ PairPresent s := by
  rw [extractMarked_eq_none_iff _ _ (by decide) s, pairPresent_iff_exists_match]
  push_neg
  rfl

/-- C4: structured-output parsing fails with the missing-section error
exactly when no marker pair is present; when a pair is present there is
a well-defined first-pair content, and parsing fails with the
empty-text error if that content trims to nothing, else succeeds
returning exactly that content trimmed. -/
theorem c4_theorem (s : List Char) (e : Bool) :
    (¬ PairPresent s →
      parseStructuredResponse s e = Except.error invalidFormatMsg)
    ∧ (PairPresent s → ∃ c, FirstPairContent s c)
    ∧ (∀ c, FirstPairContent s c →
        (jsTrim c = [] →
          parseStructuredResponse s e = Except.error emptyCleanedMsg)
        ∧ (jsTrim c ≠ [] →
          ∃ r, parseStructuredResponse s e = Except.ok r ∧
            r.cleanedText = jsTrim c)) := by
  refine ⟨?_, ?_, ?_⟩
  · intro hnp
    have hnone := (extract_eq_none_iff_not_pairPresent s).mpr hnp
    simp [parseStructuredResponse, hnone]
  · intro hp
    cases hext : extractMarked CLEANED_TEXT_START CLEANED_TEXT_END s with
    | none => exact absurd ((extract_eq_none_iff_not_pairPresent s).mp hext) (by simpa using hp)
    | some c => exact ⟨c, firstPairContent_of_extract s c hext⟩
  · intro c hfpc
    have hsome := extract_of_firstPairContent s c hfpc
    constructor
    · intro htrim
      simp [parseStructuredResponse, hsome, htrim]
    · intro htrim
      cases hp : parseStructuredResponse s e with
      | error err =>
        simp only [parseStructuredResponse, hsome] at hp
        rw [if_neg htrim] at hp
        cases hp
      | ok r =>
        refine ⟨r, rfl, ?_⟩
        simp only [parseStructuredResponse, hsome] at hp
        rw [if_neg htrim] at hp
        injection hp with hp2
        rw [← hp2]

/-- A response without markers, for the C4 witness. -/
def c4NoPairText : List Char := "no markers here".toList

/-- A response with prose around one marker pair, for the C4 witness. -/
def c4GoodText : List Char :=
  "prose ===CLEANED TEXT=== hi ===END CLEANED TEXT=== more".toList

/-- C4 witness: the theorem instantiated at a marker-free response and
at a response with one pair containing ` hi `. -/
theorem c4_witness :
    parseStructuredResponse c4NoPairText false = Except.error invalidFormatMsg ∧
    (∃ r, parseStructuredResponse c4GoodText true = Except.ok r ∧
      r.cleanedText = jsTrim " hi ".toList) :=
  ⟨(c4_theorem c4NoPairText false).1
     ((extract_eq_none_iff_not_pairPresent c4NoPairText).mp (by decide)),
   ((c4_theorem c4GoodText true).2.2 " hi ".toList
     (firstPairContent_of_extract c4GoodText " hi ".toList (by decide))).2
     (by decide)⟩
